import Mathlib

/-!
Verification development for the voice transcription delivery pipeline
(`src/helpers/voice.js`).

Texts are modelled as lists of UTF-16-style units (`List Char`).  External
collaborators (chat lookup, file resolution, the transcription engine, the
platform messaging client, persistence, localization, the Russian-chat
classifier and the reporting sink) are modelled by a `World` record that fixes
the outcome of every external call; the pipeline itself is embedded as pure
functions that return the ordered trace of external effects they perform
together with a result flag (`Res.ok` for a normal return, `Res.err` for an
exception propagating to the caller).  A call made without `await` (fire and
forget) contributes its effects wrapped in `Effect.detached`: the call is
attempted, but its failure can reach neither the caller's control flow nor any
`catch` block of the pipeline.
-/

namespace Voicy

/-- The whitespace class of JS `String.prototype.trim` (the code points that
can occur here: space, tab, LF, CR, VT, FF, NBSP, BOM). -/
def isJsWhitespace (c : Char) : Bool :=
  c = ' ' || c = '\t' || c = '\n' || c = '\r' ||
  c = Char.ofNat 11 || c = Char.ofNat 12 || c = Char.ofNat 0xA0 || c = Char.ofNat 0xFEFF

/-- JS `text.trim()`. -/
def jsTrim (s : List Char) : List Char :=
  ((s.dropWhile isJsWhitespace).reverse.dropWhile isJsWhitespace).reverse

/-- JS regex line terminators; `.` (without the `s` flag) matches every
character except these. -/
def isLineTerminatorC (c : Char) : Bool :=
  c = '\n' || c = '\r' || c = Char.ofNat 0x2028 || c = Char.ofNat 0x2029

/-- Fuelled worker for `text.match(/[\s\S]{1,4000}/g)` (the chunker of the
interactive/edit path, `updateMessagewithTranscription`): greedy contiguous
slices of at most 4000 units.  Each step consumes at least one unit, so
`text.length` fuel is always enough. -/
def chunkAllGo : Nat → List Char → List (List Char)
  | 0, _ => []
  | _ + 1, [] => []
  | n + 1, c :: cs => ((c :: cs).take 4000) :: chunkAllGo n ((c :: cs).drop 4000)

/-- The call `text.match(/[\s\S]{1,4000}/g)`, with `null` rendered as `[]`. -/
def chunkAll (text : List Char) : List (List Char) :=
  chunkAllGo text.length text

/-- Fuelled worker for `text.match(/.{1,4000}/g)` (the chunker of the
silent/send path, `sendMessageWithTranscription`): the regex engine skips a
line terminator it cannot match and otherwise greedily takes up to 4000
non-terminator units. -/
def chunkDotGo : Nat → List Char → List (List Char)
  | 0, _ => []
  | _ + 1, [] => []
  | n + 1, c :: cs =>
    if isLineTerminatorC c then
      chunkDotGo n cs
    else
      (((c :: cs).takeWhile (fun d => !isLineTerminatorC d)).take 4000) ::
        chunkDotGo n
          ((c :: cs).drop (((c :: cs).takeWhile (fun d => !isLineTerminatorC d)).take 4000).length)

/-- The call `text.match(/.{1,4000}/g)`, with `null` rendered as `[]`. -/
def chunkDot (text : List Char) : List (List Char) :=
  chunkDotGo text.length text

/-- The sanitized chat snapshot the pipeline consumes (`findChat` result). -/
structure Chat where
  id : Int
  engine : String
  googleKey : Option String
  googleLanguage : Option String
  witLanguage : Option String
  silent : Bool
  timecodesEnabled : Bool
deriving DecidableEq

/-- The fixed promo-exemption set (`promoExceptions` in the source). -/
def promoExceptions : List Int :=
  [-1001122726482, -1001140130398, -1001275987479, -1001128503769,
   -1001179199008, -1001260542215,
   -471839945, -499632766, -428387998, -483383014, -424820225, -453221176,
   -465403737]

/-- The string `promoTexts.en`. -/
def promoTexts_en : List Char :=
  "Powered by [Todorant](https://todorant.com/?ref=voicy)".toList

/-- The string `promoTexts.ru`. -/
def promoTexts_ru : List Char :=
  "Powered by [Todorant](https://todorant.com/?ref=voicy)".toList

/-- One observable external call performed by the pipeline, with its outcome
(`ok = false` means the collaborator threw).  `detached` wraps the effects of
a call that was made without `await`. -/
inductive Effect where
  | findChatE (ok : Bool)
  | getFileE (ok : Bool)
  | fileUrlE (ok : Bool)
  | largeFileError (replyTo : Nat) (ok : Bool)
  | initiatedReply (replyTo : Nat) (ok : Bool)
  | typingE (ok : Bool)
  | engineCall (ok : Bool)
  | editMessage (msgId : Nat) (text : List Char) (ok : Bool)
  | replyMsg (text : List Char) (replyTo : Nat) (ok : Bool)
  | sendMsg (chatId : Int) (text : List Char) (ok : Bool)
  | addVoiceE (aggregate : List Char) (ok : Bool)
  | reportE (tag : String)
  | detached (e : Effect)
deriving DecidableEq

abbrev Trace := List Effect

/-- Result of a modelled async function: normal return or a thrown exception
that propagates to the caller. -/
inductive Res where
  | ok
  | err
deriving DecidableEq

/-- Outcomes of every external call plus the opaque ambient data of one
request (`ctx`, `i18n`, `isRuChat`). -/
structure World where
  chatIdCtx : Int
  msgId : Nat
  placeholderMsgId : Nat
  sentChunkMsgId : Nat
  findChatResult : Option Chat
  fileSize : Option Nat
  getFileOk : Bool
  fileUrlOk : Bool
  largeFileOk : Bool
  placeholderOk : Bool
  typingOk : Bool
  editOk : Bool
  replyOk : Bool
  sendOk : Bool
  addVoiceOk : Bool
  engineResult : Option (List (List Char × List Char) × Nat)
  isRu : Bool
  credsText : List Char
  errorText : List Char
  errDetail : List Char
  speakClearly : List Char

/-- JS truthiness of `voice.file_size` (`undefined` and `0` are falsy). -/
def jsTruthySize : Option Nat → Bool
  | none => false
  | some n => n != 0

/-- JS truthiness of `chat.googleKey` (`undefined` and `''` are falsy). -/
def jsTruthyKey : Option String → Bool
  | none => false
  | some s => s != ""

/-- The promo-append step shared verbatim by `updateMessagewithTranscription`
and `sendMessageWithTranscription`:
`if (text && !promoExceptions.includes(ctx.chat.id)) text = text + '\n' + promoTexts[isRuChat(chat) ? 'ru' : 'en']`. -/
def addPromo (ctxChatId : Int) (isRu : Bool) (text : List Char) : List Char :=
  if text ≠ [] ∧ ¬ ctxChatId ∈ promoExceptions then
    text ++ '\n' :: (if isRu then promoTexts_ru else promoTexts_en)
  else text

/-- The non-timecoded formatting
`textWithTimecodes.map(t => t[1].trim()).filter(v => !!v).join('. ')`,
used both for the display text (timecodes off) and, always, for the
persisted aggregate text. -/
def formatPlain (segs : List (List Char × List Char)) : List Char :=
  List.intercalate ". ".toList
    ((segs.map (fun t => jsTrim t.2)).filter (fun v => !v.isEmpty))

/-- The timecoded formatting
`textWithTimecodes.map(t => t[0] + ':\n' + t[1]).join('\n')`. -/
def formatTimecodes (segs : List (List Char × List Char)) : List Char :=
  List.intercalate "\n".toList (segs.map (fun t => t.1 ++ ':' :: '\n' :: t.2))

/-- The `for (const chunk of chunks) await ctx.reply(chunk, ...)` loop:
each remaining chunk is sent as a reply threaded to `replyTo`; the first
failure throws out of the loop. -/
def replyChunks (w : World) (replyTo : Nat) : List (List Char) → Trace × Res
  | [] => ([], Res.ok)
  | c :: cs =>
    if w.replyOk then
      (Effect.replyMsg c replyTo true :: (replyChunks w replyTo cs).1,
       (replyChunks w replyTo cs).2)
    else ([Effect.replyMsg c replyTo false], Res.err)

/-- The function `updateMessagewithTranscription`: append promo, then either edit the
placeholder in place (empty text falls back to the `speak_clearly` string) or
chunk with `/[\s\S]{1,4000}/g`, edit with the first chunk and reply the rest
threaded to the placeholder. -/
def updateMessagewithTranscription (w : World) (msgId : Nat) (text : List Char) : Trace × Res :=
  let text' := addPromo w.chatIdCtx w.isRu text
  if text' = [] ∨ text'.length ≤ 4000 then
    ([Effect.editMessage msgId (if text' = [] then w.speakClearly else text') w.editOk],
     if w.editOk then Res.ok else Res.err)
  else
    match chunkAll text' with
    | [] => ([], Res.err)
    | c :: rest =>
      if w.editOk then
        (Effect.editMessage msgId c true :: (replyChunks w msgId rest).1,
         (replyChunks w msgId rest).2)
      else ([Effect.editMessage msgId c false], Res.err)

/-- The function `sendMessageWithTranscription`: append promo; short non-empty text is sent
as one message; text of length at least 4000 is chunked with `/.{1,4000}/g`
(`null.shift()` on a match failure throws); empty text sends nothing. -/
def sendMessageWithTranscription (w : World) (text : List Char) (chatId : Int) : Trace × Res :=
  let text' := addPromo w.chatIdCtx w.isRu text
  if text' ≠ [] ∧ text'.length < 4000 then
    ([Effect.sendMsg chatId text' w.sendOk], if w.sendOk then Res.ok else Res.err)
  else if text' ≠ [] then
    match chunkDot text' with
    | [] => ([], Res.err)
    | c :: rest =>
      if w.sendOk then
        (Effect.sendMsg chatId c true :: (replyChunks w w.sentChunkMsgId rest).1,
         (replyChunks w w.sentChunkMsgId rest).2)
      else ([Effect.sendMsg chatId c false], Res.err)
  else ([], Res.ok)

/-- The function `updateMessagewithError`: edit the placeholder to the localized error text
(with the raw engine detail appended for the google engine); an edit failure
is caught locally and reported. -/
def updateMessagewithError (w : World) (msgId : Nat) (chat : Chat) : Trace × Res :=
  let text := if chat.engine = "google" then w.errorText ++ w.errDetail else w.errorText
  if w.editOk then ([Effect.editMessage msgId text true], Res.ok)
  else ([Effect.editMessage msgId text false, Effect.reportE "updateMessagewithError"], Res.ok)

/-- The function `updateWithGoogleKeyError`: deliver the `google_error_creds` text through
`updateMessagewithTranscription` (the same function used for successful
transcriptions). -/
def updateWithGoogleKeyError (w : World) : Trace × Res :=
  updateMessagewithTranscription w w.placeholderMsgId w.credsText

/-- The function `sendTranscription` (interactive delivery): placeholder reply, credential
gate (whose `updateWithGoogleKeyError` call is not awaited, hence `detached`),
engine call, delivery, persistence; the catch block edits the placeholder to
an error notice and reports. -/
def sendTranscription (w : World) (chat : Chat) : Trace × Res :=
  if w.placeholderOk then
    if chat.engine = "google" ∧ jsTruthyKey chat.googleKey = false then
      (Effect.initiatedReply w.msgId true :: (updateWithGoogleKeyError w).1.map Effect.detached,
       Res.ok)
    else
      match w.engineResult with
      | none =>
        (Effect.initiatedReply w.msgId true :: Effect.engineCall false ::
          ((updateMessagewithError w w.placeholderMsgId chat).1 ++
            [Effect.reportE "sendTranscription"]),
         Res.ok)
      | some (segs, _dur) =>
        let text := if chat.timecodesEnabled then formatTimecodes segs else formatPlain segs
        let u := updateMessagewithTranscription w w.placeholderMsgId text
        match u.2 with
        | Res.err =>
          (Effect.initiatedReply w.msgId true :: Effect.engineCall true ::
            (u.1 ++ (updateMessagewithError w w.placeholderMsgId chat).1 ++
              [Effect.reportE "sendTranscription"]),
           Res.ok)
        | Res.ok =>
          if w.addVoiceOk then
            (Effect.initiatedReply w.msgId true :: Effect.engineCall true ::
              (u.1 ++ [Effect.addVoiceE (formatPlain segs) true]),
             Res.ok)
          else
            (Effect.initiatedReply w.msgId true :: Effect.engineCall true ::
              (u.1 ++ [Effect.addVoiceE (formatPlain segs) false] ++
                (updateMessagewithError w w.placeholderMsgId chat).1 ++
                [Effect.reportE "sendTranscription"]),
             Res.ok)
  else ([Effect.initiatedReply w.msgId false], Res.err)

/-- The function `sendAction` (silent delivery): typing indicator, fully silent credential
gate, engine call, delivery, persistence; the catch block only reports
(tag `sendTranscription.silent`), nothing is shown to the user. -/
def sendAction (w : World) (chat : Chat) : Trace × Res :=
  if w.typingOk then
    if chat.engine = "google" ∧ jsTruthyKey chat.googleKey = false then
      ([Effect.typingE true], Res.ok)
    else
      match w.engineResult with
      | none =>
        ([Effect.typingE true, Effect.engineCall false,
          Effect.reportE "sendTranscription.silent"], Res.ok)
      | some (segs, _dur) =>
        let text := if chat.timecodesEnabled then formatTimecodes segs else formatPlain segs
        let s := sendMessageWithTranscription w text chat.id
        match s.2 with
        | Res.err =>
          (Effect.typingE true :: Effect.engineCall true ::
            (s.1 ++ [Effect.reportE "sendTranscription.silent"]), Res.ok)
        | Res.ok =>
          if w.addVoiceOk then
            (Effect.typingE true :: Effect.engineCall true ::
              (s.1 ++ [Effect.addVoiceE (formatPlain segs) true]), Res.ok)
          else
            (Effect.typingE true :: Effect.engineCall true ::
              (s.1 ++ [Effect.addVoiceE (formatPlain segs) false,
                Effect.reportE "sendTranscription.silent"]), Res.ok)
  else ([Effect.typingE false], Res.err)

/-- Body of `handleMessage` up to (but excluding) its top-level catch:
chat lookup, size gate, file resolution, dispatch on `chat.silent` with the
per-branch try/catch that reports `sendAction` / `sendTranscription`. -/
def handleMessageInner (w : World) : Trace × Res :=
  match w.findChatResult with
  | none => ([Effect.findChatE false], Res.err)
  | some chat =>
    if jsTruthySize w.fileSize ∧ 19 * 1024 * 1024 ≤ w.fileSize.getD 0 then
      if chat.silent then ([Effect.findChatE true], Res.ok)
      else
        ([Effect.findChatE true, Effect.largeFileError w.msgId w.largeFileOk],
         if w.largeFileOk then Res.ok else Res.err)
    else
      if w.getFileOk then
        if w.fileUrlOk then
          if chat.silent then
            let a := sendAction w chat
            (Effect.findChatE true :: Effect.getFileE true :: Effect.fileUrlE true ::
              (a.1 ++ (match a.2 with
                | Res.ok => []
                | Res.err => [Effect.reportE "sendAction"])), Res.ok)
          else
            let s := sendTranscription w chat
            (Effect.findChatE true :: Effect.getFileE true :: Effect.fileUrlE true ::
              (s.1 ++ (match s.2 with
                | Res.ok => []
                | Res.err => [Effect.reportE "sendTranscription"])), Res.ok)
        else ([Effect.findChatE true, Effect.getFileE true, Effect.fileUrlE false], Res.err)
      else ([Effect.findChatE true, Effect.getFileE false], Res.err)

/-- The function `handleMessage`: the entry point with its top-level try/catch that reports
with tag `handleMessage` and swallows the error. -/
def handleMessage (w : World) : Trace × Res :=
  match (handleMessageInner w).2 with
  | Res.ok => handleMessageInner w
  | Res.err => ((handleMessageInner w).1 ++ [Effect.reportE "handleMessage"], Res.ok)

/-- A failed external call that was awaited (failures of detached calls are
not visible to any catch block). -/
def isFailedLeaf : Effect → Bool
  | .findChatE ok => !ok
  | .getFileE ok => !ok
  | .fileUrlE ok => !ok
  | .largeFileError _ ok => !ok
  | .initiatedReply _ ok => !ok
  | .typingE ok => !ok
  | .engineCall ok => !ok
  | .editMessage _ _ ok => !ok
  | .replyMsg _ _ ok => !ok
  | .sendMsg _ _ ok => !ok
  | .addVoiceE _ ok => !ok
  | .reportE _ => false
  | .detached _ => false

/-- A failed external call, detached or not. -/
def isFailedAny : Effect → Bool
  | .findChatE ok => !ok
  | .getFileE ok => !ok
  | .fileUrlE ok => !ok
  | .largeFileError _ ok => !ok
  | .initiatedReply _ ok => !ok
  | .typingE ok => !ok
  | .engineCall ok => !ok
  | .editMessage _ _ ok => !ok
  | .replyMsg _ _ ok => !ok
  | .sendMsg _ _ ok => !ok
  | .addVoiceE _ ok => !ok
  | .reportE _ => false
  | .detached e => isFailedAny e

/-- A call to the reporting sink. -/
def isReport : Effect → Bool
  | .reportE _ => true
  | _ => false

/-! ### Chunker lemmas -/

theorem chunkAllGo_flatten : ∀ (n : Nat) (xs : List Char), xs.length ≤ n →
    (chunkAllGo n xs).flatten = xs := by
  intro n
  induction n with
  | zero =>
    intro xs h
    have : xs = [] := List.length_eq_zero.mp (Nat.le_zero.mp h)
    subst this; rfl
  | succ n ih =>
    intro xs h
    cases xs with
    | nil => rfl
    | cons c cs =>
      rw [chunkAllGo]
      simp only [List.flatten_cons]
      rw [ih ((c :: cs).drop 4000)
          (by simp only [List.length_drop, List.length_cons] at h ⊢; omega),
        List.take_append_drop]

theorem chunkAll_flatten (xs : List Char) : (chunkAll xs).flatten = xs :=
  chunkAllGo_flatten xs.length xs le_rfl

theorem chunkAllGo_sizes : ∀ (n : Nat) (xs c : List Char), c ∈ chunkAllGo n xs →
    c.length ≤ 4000 := by
  intro n
  induction n with
  | zero => intro xs c hc; simp [chunkAllGo] at hc
  | succ n ih =>
    intro xs c hc
    cases xs with
    | nil => simp [chunkAllGo] at hc
    | cons a as =>
      rw [chunkAllGo] at hc
      rcases List.mem_cons.mp hc with h | h
      · subst h; exact List.length_take_le 4000 _
      · exact ih _ _ h

theorem chunkAll_ne_nil {xs : List Char} (h : xs ≠ []) : chunkAll xs ≠ [] := by
  cases xs with
  | nil => exact absurd rfl h
  | cons a as => simp [chunkAll, chunkAllGo]

theorem chunkDotGo_flatten : ∀ (n : Nat) (xs : List Char), xs.length ≤ n →
    (chunkDotGo n xs).flatten = xs.filter (fun c => !isLineTerminatorC c) := by
  intro n
  induction n with
  | zero =>
    intro xs h
    have : xs = [] := List.length_eq_zero.mp (Nat.le_zero.mp h)
    subst this; rfl
  | succ n ih =>
    intro xs h
    cases xs with
    | nil => rfl
    | cons c cs =>
      rw [chunkDotGo]
      by_cases hc : isLineTerminatorC c
      · rw [if_pos hc, ih cs (by simpa using Nat.le_of_succ_le_succ h)]
        simp [List.filter_cons, hc]
      · rw [if_neg hc]
        have hcons : (c :: cs).takeWhile (fun d => !isLineTerminatorC d)
            = c :: cs.takeWhile (fun d => !isLineTerminatorC d) :=
          List.takeWhile_cons_of_pos (by simpa using hc)
        set m := ((c :: cs).takeWhile (fun d => !isLineTerminatorC d)).take 4000 with hm
        have hpre : m <+: (c :: cs) :=
          (List.take_prefix _ _).trans (List.takeWhile_prefix _)
        have hsplit : m ++ (c :: cs).drop m.length = c :: cs := by
          obtain ⟨t, ht⟩ := hpre
          rw [← ht, List.drop_left]
        have hmlen : 1 ≤ m.length := by
          rw [hm, hcons, List.take_succ_cons]
          simp
        have hfuel : ((c :: cs).drop m.length).length ≤ n := by
          simp only [List.length_drop, List.length_cons]
          simp only [List.length_cons] at h
          generalize m.length = ml at hmlen ⊢
          omega
        have hfm : List.filter (fun d => !isLineTerminatorC d) m = m := by
          apply List.filter_eq_self.mpr
          intro x hx
          rw [hm] at hx
          have hx' : x ∈ List.takeWhile (fun d => !isLineTerminatorC d) (c :: cs) :=
            List.mem_of_mem_take hx
          simpa using List.mem_takeWhile_imp hx'
        simp only [List.flatten_cons]
        calc m ++ (chunkDotGo n ((c :: cs).drop m.length)).flatten
            = m ++ List.filter (fun d => !isLineTerminatorC d) ((c :: cs).drop m.length) := by
              rw [ih _ hfuel]
          _ = List.filter (fun d => !isLineTerminatorC d) m ++
              List.filter (fun d => !isLineTerminatorC d) ((c :: cs).drop m.length) := by
              rw [hfm]
          _ = List.filter (fun d => !isLineTerminatorC d) (m ++ (c :: cs).drop m.length) :=
              (List.filter_append _ _).symm
          _ = List.filter (fun d => !isLineTerminatorC d) (c :: cs) := by rw [hsplit]

theorem chunkDot_flatten (xs : List Char) :
    (chunkDot xs).flatten = xs.filter (fun c => !isLineTerminatorC c) :=
  chunkDotGo_flatten xs.length xs le_rfl

theorem chunkDotGo_sizes : ∀ (n : Nat) (xs c : List Char), c ∈ chunkDotGo n xs →
    c.length ≤ 4000 := by
  intro n
  induction n with
  | zero => intro xs c hc; simp [chunkDotGo] at hc
  | succ n ih =>
    intro xs c hc
    cases xs with
    | nil => simp [chunkDotGo] at hc
    | cons a as =>
      rw [chunkDotGo] at hc
      by_cases ha : isLineTerminatorC a
      · rw [if_pos ha] at hc; exact ih _ _ hc
      · rw [if_neg ha] at hc
        rcases List.mem_cons.mp hc with h | h
        · subst h; exact List.length_take_le 4000 _
        · exact ih _ _ h

theorem chunkDot_ne_nil {xs : List Char} (h : ∃ c ∈ xs, ¬ isLineTerminatorC c) :
    chunkDot xs ≠ [] := by
  intro hnil
  obtain ⟨c, hcx, hc⟩ := h
  have hmem : c ∈ List.filter (fun c => !isLineTerminatorC c) xs :=
    List.mem_filter.mpr ⟨hcx, by simpa using hc⟩
  rw [← chunkDot_flatten, hnil] at hmem
  simp at hmem

/-! ### Promo-append lemmas -/

theorem addPromo_exempt {ctxChatId : Int} (isRu : Bool) (text : List Char)
    (h : ctxChatId ∈ promoExceptions) : addPromo ctxChatId isRu text = text := by
  unfold addPromo
  rw [if_neg]
  rintro ⟨-, hno⟩
  exact hno h

theorem addPromo_append {ctxChatId : Int} (isRu : Bool) (text : List Char)
    (h : ctxChatId ∉ promoExceptions) (hne : text ≠ []) :
    addPromo ctxChatId isRu text
      = text ++ '\n' :: (if isRu then promoTexts_ru else promoTexts_en) := by
  unfold addPromo
  rw [if_pos ⟨hne, h⟩]

theorem addPromo_nil (ctxChatId : Int) (isRu : Bool) :
    addPromo ctxChatId isRu [] = [] := by
  unfold addPromo
  rw [if_neg]
  rintro ⟨hne, -⟩
  exact hne rfl

/-! ### Evaluation lemmas for the delivery helpers -/

theorem update_short (w : World) (msgId : Nat) (text : List Char)
    (hne : addPromo w.chatIdCtx w.isRu text ≠ [])
    (hlen : (addPromo w.chatIdCtx w.isRu text).length ≤ 4000) :
    updateMessagewithTranscription w msgId text
      = ([Effect.editMessage msgId (addPromo w.chatIdCtx w.isRu text) w.editOk],
         if w.editOk then Res.ok else Res.err) := by
  simp only [updateMessagewithTranscription]
  rw [if_pos (Or.inr hlen), if_neg hne]

theorem replyChunks_all (w : World) (replyTo : Nat) (h : w.replyOk = true) :
    ∀ cs, replyChunks w replyTo cs
      = (cs.map (fun c => Effect.replyMsg c replyTo true), Res.ok) := by
  intro cs
  induction cs with
  | nil => rfl
  | cons c cs ih => simp [replyChunks, h, ih]

theorem replyChunks_mem (w : World) (replyTo : Nat) :
    ∀ cs e, e ∈ (replyChunks w replyTo cs).1 → ∃ c ok, e = Effect.replyMsg c replyTo ok := by
  intro cs
  induction cs with
  | nil => simp [replyChunks]
  | cons c cs ih =>
    intro e he
    by_cases hr : w.replyOk
    · simp only [replyChunks, hr, if_true] at he
      rcases List.mem_cons.mp he with h | h
      · exact ⟨c, true, h⟩
      · exact ih e h
    · simp only [replyChunks, hr, if_false] at he
      rcases List.mem_cons.mp he with h | h
      · exact ⟨c, false, h⟩
      · simp at h

theorem replyChunks_safe (w : World) (replyTo : Nat) :
    ∀ cs, (replyChunks w replyTo cs).1.any isFailedLeaf = true →
      (replyChunks w replyTo cs).2 = Res.err := by
  intro cs
  induction cs with
  | nil => simp [replyChunks]
  | cons c cs ih =>
    by_cases hr : w.replyOk
    · simp only [replyChunks, hr, if_true, List.any_cons]
      intro h
      rcases Bool.or_eq_true_iff.mp h with h | h
      · simp [isFailedLeaf] at h
      · exact ih h
    · simp [replyChunks, hr]

theorem update_mem (w : World) (m : Nat) (t : List Char) :
    ∀ e ∈ (updateMessagewithTranscription w m t).1,
      (∃ t' ok, e = Effect.editMessage m t' ok) ∨ (∃ c ok, e = Effect.replyMsg c m ok) := by
  intro e he
  simp only [updateMessagewithTranscription] at he
  split at he
  · rcases List.mem_singleton.mp he with rfl
    exact Or.inl ⟨_, _, rfl⟩
  · split at he
    · simp at he
    · split at he
      · rcases List.mem_cons.mp he with h | h
        · exact Or.inl ⟨_, _, h⟩
        · rcases replyChunks_mem w m _ e h with ⟨c, ok, rfl⟩
          exact Or.inr ⟨c, ok, rfl⟩
      · rcases List.mem_singleton.mp he with rfl
        exact Or.inl ⟨_, _, rfl⟩

theorem update_safe (w : World) (m : Nat) (t : List Char) :
    (updateMessagewithTranscription w m t).1.any isFailedLeaf = true →
      (updateMessagewithTranscription w m t).2 = Res.err := by
  simp only [updateMessagewithTranscription]
  split
  · by_cases he : w.editOk <;> simp [he, isFailedLeaf]
  · split
    · simp
    · split
      · simp only [List.any_cons]
        intro h
        rcases Bool.or_eq_true_iff.mp h with h | h
        · simp [isFailedLeaf] at h
        · exact replyChunks_safe w m _ h
      · simp

theorem update_ok_noFail (w : World) (m : Nat) (t : List Char)
    (h : (updateMessagewithTranscription w m t).2 = Res.ok) :
    (updateMessagewithTranscription w m t).1.any isFailedLeaf = false := by
  by_cases hf : (updateMessagewithTranscription w m t).1.any isFailedLeaf
  · rw [update_safe w m t hf] at h
    exact absurd h (by simp)
  · simpa using hf

theorem sendMessage_nil (w : World) (chatId : Int)
    (h : addPromo w.chatIdCtx w.isRu [] = []) :
    sendMessageWithTranscription w [] chatId = ([], Res.ok) := by
  simp [sendMessageWithTranscription, h]

theorem sendMessage_mem (w : World) (t : List Char) (chatId : Int) :
    ∀ e ∈ (sendMessageWithTranscription w t chatId).1,
      (∃ t' ok, e = Effect.sendMsg chatId t' ok) ∨
      (∃ c ok, e = Effect.replyMsg c w.sentChunkMsgId ok) := by
  intro e he
  simp only [sendMessageWithTranscription] at he
  split at he
  · rcases List.mem_singleton.mp he with rfl
    exact Or.inl ⟨_, _, rfl⟩
  · split at he
    · split at he
      · simp at he
      · split at he
        · rcases List.mem_cons.mp he with h | h
          · exact Or.inl ⟨_, _, h⟩
          · rcases replyChunks_mem w _ _ e h with ⟨c, ok, rfl⟩
            exact Or.inr ⟨c, ok, rfl⟩
        · rcases List.mem_singleton.mp he with rfl
          exact Or.inl ⟨_, _, rfl⟩
    · simp at he

theorem sendMessage_safe (w : World) (t : List Char) (chatId : Int) :
    (sendMessageWithTranscription w t chatId).1.any isFailedLeaf = true →
      (sendMessageWithTranscription w t chatId).2 = Res.err := by
  simp only [sendMessageWithTranscription]
  split
  · by_cases hs : w.sendOk <;> simp [hs, isFailedLeaf]
  · split
    · split
      · simp
      · split
        · simp only [List.any_cons]
          intro h
          rcases Bool.or_eq_true_iff.mp h with h | h
          · simp [isFailedLeaf] at h
          · exact replyChunks_safe w _ _ h
        · simp
    · simp

theorem sendMessage_ok_noFail (w : World) (t : List Char) (chatId : Int)
    (h : (sendMessageWithTranscription w t chatId).2 = Res.ok) :
    (sendMessageWithTranscription w t chatId).1.any isFailedLeaf = false := by
  by_cases hf : (sendMessageWithTranscription w t chatId).1.any isFailedLeaf
  · rw [sendMessage_safe w t chatId hf] at h
    exact absurd h (by simp)
  · simpa using hf

theorem updErr_mem (w : World) (m : Nat) (chat : Chat) :
    ∀ e ∈ (updateMessagewithError w m chat).1,
      (∃ t ok, e = Effect.editMessage m t ok) ∨ e = Effect.reportE "updateMessagewithError" := by
  intro e he
  simp only [updateMessagewithError] at he
  split at he
  · rcases List.mem_singleton.mp he with rfl
    exact Or.inl ⟨_, _, rfl⟩
  · rcases List.mem_cons.mp he with h | h
    · exact Or.inl ⟨_, _, h⟩
    · rcases List.mem_singleton.mp h with rfl
      exact Or.inr rfl

theorem updErr_safe (w : World) (m : Nat) (chat : Chat) :
    (updateMessagewithError w m chat).1.any isFailedLeaf = true →
      (updateMessagewithError w m chat).1.any isReport = true := by
  simp only [updateMessagewithError]
  split
  · simp [isFailedLeaf]
  · simp [isReport]

theorem updErr_ok (w : World) (m : Nat) (chat : Chat) :
    (updateMessagewithError w m chat).2 = Res.ok := by
  simp only [updateMessagewithError]
  split <;> rfl

theorem addPromo_ne_nil (ctxChatId : Int) (isRu : Bool) {text : List Char}
    (h : text ≠ []) : addPromo ctxChatId isRu text ≠ [] := by
  unfold addPromo
  split
  · simp
  · exact h

theorem addPromo_prefix (ctxChatId : Int) (isRu : Bool) (text : List Char) :
    text <+: addPromo ctxChatId isRu text := by
  unfold addPromo
  split
  · exact List.prefix_append _ _
  · exact List.prefix_rfl

theorem sendTranscription_creds (w : World) (chat : Chat)
    (heng : chat.engine = "google") (hkey : jsTruthyKey chat.googleKey = false)
    (hpl : w.placeholderOk = true) :
    sendTranscription w chat
      = (Effect.initiatedReply w.msgId true ::
          (updateWithGoogleKeyError w).1.map Effect.detached, Res.ok) := by
  simp [sendTranscription, hpl, heng, hkey]

theorem sendAction_creds (w : World) (chat : Chat)
    (heng : chat.engine = "google") (hkey : jsTruthyKey chat.googleKey = false)
    (hty : w.typingOk = true) :
    sendAction w chat = ([Effect.typingE true], Res.ok) := by
  simp [sendAction, hty, heng, hkey]

theorem sendAction_creds_noEngine (w : World) (chat : Chat)
    (heng : chat.engine = "google") (hkey : jsTruthyKey chat.googleKey = false) :
    ∀ b, Effect.engineCall b ∉ (sendAction w chat).1 := by
  intro b
  by_cases hty : w.typingOk
  · rw [sendAction_creds w chat heng hkey hty]
    simp
  · simp [sendAction, hty]

theorem sendTranscription_creds_noEngine (w : World) (chat : Chat)
    (heng : chat.engine = "google") (hkey : jsTruthyKey chat.googleKey = false) :
    ∀ b, Effect.engineCall b ∉ (sendTranscription w chat).1 := by
  intro b
  by_cases hpl : w.placeholderOk
  · rw [sendTranscription_creds w chat heng hkey hpl]
    intro hmem
    rcases List.mem_cons.mp hmem with h | h
    · simp at h
    · rcases List.mem_map.mp h with ⟨e, -, he⟩
      simp at he
  · simp [sendTranscription, hpl]

theorem sendAction_empty (w : World) (chat : Chat)
    (segs : List (List Char × List Char)) (dur : Nat)
    (hty : w.typingOk = true)
    (hnc : ¬(chat.engine = "google" ∧ jsTruthyKey chat.googleKey = false))
    (heng : w.engineResult = some (segs, dur))
    (htc : chat.timecodesEnabled = false)
    (hempty : formatPlain segs = [])
    (hav : w.addVoiceOk = true) :
    sendAction w chat
      = ([Effect.typingE true, Effect.engineCall true, Effect.addVoiceE [] true],
         Res.ok) := by
  have hnilp : addPromo w.chatIdCtx w.isRu [] = [] := addPromo_nil _ _
  simp only [sendAction, hty, if_true, heng]
  rw [if_neg hnc]
  simp only [htc, Bool.false_eq_true, if_false, hempty]
  rw [sendMessage_nil w chat.id hnilp]
  simp [hav, hempty]

theorem inner_eval (w : World) (chat : Chat)
    (hfind : w.findChatResult = some chat)
    (hgate : ¬(jsTruthySize w.fileSize = true ∧ 19 * 1024 * 1024 ≤ w.fileSize.getD 0))
    (hgf : w.getFileOk = true) (hfu : w.fileUrlOk = true) :
    handleMessageInner w
      = if chat.silent then
          (Effect.findChatE true :: Effect.getFileE true :: Effect.fileUrlE true ::
            ((sendAction w chat).1 ++ (match (sendAction w chat).2 with
              | Res.ok => ([] : Trace)
              | Res.err => [Effect.reportE "sendAction"])), Res.ok)
        else
          (Effect.findChatE true :: Effect.getFileE true :: Effect.fileUrlE true ::
            ((sendTranscription w chat).1 ++ (match (sendTranscription w chat).2 with
              | Res.ok => ([] : Trace)
              | Res.err => [Effect.reportE "sendTranscription"])), Res.ok) := by
  simp only [handleMessageInner, hfind, hgf, hfu, if_true]
  rw [if_neg hgate]

theorem handleMessage_ok (w : World) (h : (handleMessageInner w).2 = Res.ok) :
    handleMessage w = handleMessageInner w := by
  simp only [handleMessage, h]

/-- A convenient world used to instantiate witnesses. -/
def baseWorld : World where
  chatIdCtx := 0
  msgId := 1
  placeholderMsgId := 2
  sentChunkMsgId := 3
  findChatResult := none
  fileSize := none
  getFileOk := true
  fileUrlOk := true
  largeFileOk := true
  placeholderOk := true
  typingOk := true
  editOk := true
  replyOk := true
  sendOk := true
  addVoiceOk := true
  engineResult := none
  isRu := false
  credsText := "creds".toList
  errorText := "error".toList
  errDetail := "detail".toList
  speakClearly := "speak".toList

/-! ### Claims -/

/-- C1, counterexample: the claim fails for the chunker of the silent (send)
path.  `/.{1,4000}/g` does not match line terminators, so on `"a\nb"` the
chunks concatenate to `"ab"`, not the input; and on the non-empty text `"\n"`
the match result is `null` (no chunks at all). -/
theorem claim_C1_cex :
    (chunkDot ('a' :: '\n' :: 'b' :: [])).flatten ≠ ('a' :: '\n' :: 'b' :: []) ∧
    ('\n' :: [] : List Char) ≠ [] ∧ chunkDot ('\n' :: []) = [] := by
  decide

/-- C1 (amended): the interactive-path chunker `/[\s\S]{1,4000}/g` produces
contiguous slices of length at most 4000 whose concatenation is exactly the
input, and is non-empty on non-empty input; the silent-path chunker
`/.{1,4000}/g` also produces slices of length at most 4000, but its
concatenation equals the input with the line terminators removed, and it is
non-empty only when the input contains at least one non-terminator unit. -/
theorem claim_C1 (text : List Char) :
    ((chunkAll text).flatten = text) ∧
    (∀ c ∈ chunkAll text, c.length ≤ 4000) ∧
    (text ≠ [] → chunkAll text ≠ []) ∧
    ((chunkDot text).flatten = text.filter (fun c => !isLineTerminatorC c)) ∧
    (∀ c ∈ chunkDot text, c.length ≤ 4000) ∧
    ((∃ c ∈ text, ¬ isLineTerminatorC c) → chunkDot text ≠ []) :=
  ⟨chunkAll_flatten text, fun c hc => chunkAllGo_sizes _ _ c hc,
   fun h => chunkAll_ne_nil h, chunkDot_flatten text,
   fun c hc => chunkDotGo_sizes _ _ c hc, fun h => chunkDot_ne_nil h⟩

theorem claim_C1_witness :
    (chunkAll ('a' :: [])).flatten = ('a' :: []) ∧
    chunkAll ('a' :: []) ≠ [] ∧ chunkDot ('a' :: []) ≠ [] :=
  ⟨(claim_C1 ('a' :: [])).1, (claim_C1 ('a' :: [])).2.2.1 (by decide),
   (claim_C1 ('a' :: [])).2.2.2.2.2 ⟨'a', by decide, by decide⟩⟩

/-- C5 (confirmed): with the timecode flag off, the formatted text (before the
promo step) is the `". "`-join of the segments' trimmed texts with empty ones
dropped; on `[("0:00","hello "), ("0:05","")]` it is `"hello"`; and the empty
string is never among the joined parts, so the join never places two
separators next to each other. -/
theorem claim_C5 (segs : List (List Char × List Char)) :
    formatPlain [("0:00".toList, "hello ".toList), ("0:05".toList, "".toList)]
      = "hello".toList ∧
    formatPlain segs
      = List.intercalate ". ".toList
          ((segs.map (fun t => jsTrim t.2)).filter (fun v => !v.isEmpty)) ∧
    [] ∉ (segs.map (fun t => jsTrim t.2)).filter (fun v => !v.isEmpty) := by
  refine ⟨by decide, rfl, ?_⟩
  intro hmem
  have := (List.mem_filter.mp hmem).2
  simp at this

theorem claim_C5_witness :
    formatPlain [("0:00".toList, "hello ".toList), ("0:05".toList, "".toList)]
      = "hello".toList :=
  (claim_C5 []).1

/-- C6 (confirmed): for a chat identifier in the fixed exemption set the promo
step leaves the text unchanged (no promo suffix is appended); for any other
chat identifier the promo step maps every non-empty text to the text followed
by a newline and the promo variant chosen by the Russian-chat classifier, so
the result ends with that suffix. -/
theorem claim_C6 (ctxChatId : Int) (isRu : Bool) (text : List Char) :
    (ctxChatId ∈ promoExceptions → addPromo ctxChatId isRu text = text) ∧
    (ctxChatId ∉ promoExceptions → text ≠ [] →
      addPromo ctxChatId isRu text
        = text ++ '\n' :: (if isRu then promoTexts_ru else promoTexts_en) ∧
      ('\n' :: (if isRu then promoTexts_ru else promoTexts_en))
        <:+ addPromo ctxChatId isRu text) := by
  constructor
  · intro h
    exact addPromo_exempt isRu text h
  · intro h hne
    refine ⟨addPromo_append isRu text h hne, ?_⟩
    rw [addPromo_append isRu text h hne]
    exact ⟨text, rfl⟩

theorem claim_C6_witness :
    addPromo (-471839945) false ('h' :: []) = ('h' :: []) ∧
    addPromo 0 false ('h' :: []) = ('h' :: []) ++ '\n' :: promoTexts_en := by
  refine ⟨(claim_C6 (-471839945) false ('h' :: [])).1 (by decide), ?_⟩
  have := ((claim_C6 0 false ('h' :: [])).2 (by decide) (by decide)).1
  simpa using this

/-- C10 (confirmed): the interactive missing-credentials notice goes through
`updateMessagewithTranscription`, so for a chat outside the exemption set the
edit that replaces the placeholder carries the credential-error text with the
promo suffix appended. -/
theorem claim_C10 (w : World)
    (hex : w.chatIdCtx ∉ promoExceptions)
    (hne : w.credsText ≠ [])
    (hlen : (w.credsText ++ '\n' ::
      (if w.isRu then promoTexts_ru else promoTexts_en)).length ≤ 4000) :
    (updateWithGoogleKeyError w).1
      = [Effect.editMessage w.placeholderMsgId
          (w.credsText ++ '\n' :: (if w.isRu then promoTexts_ru else promoTexts_en))
          w.editOk] ∧
    ('\n' :: (if w.isRu then promoTexts_ru else promoTexts_en))
      <:+ w.credsText ++ '\n' :: (if w.isRu then promoTexts_ru else promoTexts_en) := by
  have hp := addPromo_append w.isRu w.credsText hex hne
  constructor
  · unfold updateWithGoogleKeyError
    rw [update_short w _ _ (by rw [hp]; simp) (by rw [hp]; exact hlen), hp]
  · exact ⟨w.credsText, rfl⟩

theorem claim_C10_witness :
    (updateWithGoogleKeyError baseWorld).1
      = [Effect.editMessage baseWorld.placeholderMsgId
          (baseWorld.credsText ++ '\n' ::
            (if baseWorld.isRu then promoTexts_ru else promoTexts_en))
          baseWorld.editOk] ∧
    ('\n' :: (if baseWorld.isRu then promoTexts_ru else promoTexts_en))
      <:+ baseWorld.credsText ++ '\n' ::
        (if baseWorld.isRu then promoTexts_ru else promoTexts_en) :=
  claim_C10 baseWorld (by decide) (by decide) (by decide)

/-- C2 (confirmed): when the attachment byte size is present, non-zero and at
least `19 * 1024 * 1024`, the pipeline resolves no file URL and calls no
engine; a silent chat produces no outgoing message and no report, while an
interactive chat gets exactly one large-file notice sent as a reply threaded
to the original message. -/
theorem claim_C2 (w : World) (chat : Chat) (sz : Nat)
    (hfind : w.findChatResult = some chat)
    (hsz : w.fileSize = some sz) (hnz : sz ≠ 0) (hbig : 19 * 1024 * 1024 ≤ sz) :
    (chat.silent = true → handleMessage w = ([Effect.findChatE true], Res.ok)) ∧
    (chat.silent = false → w.largeFileOk = true →
      handleMessage w
        = ([Effect.findChatE true, Effect.largeFileError w.msgId true], Res.ok)) ∧
    (∀ b, Effect.engineCall b ∉ (handleMessage w).1) ∧
    (∀ b, Effect.getFileE b ∉ (handleMessage w).1) ∧
    (∀ b, Effect.fileUrlE b ∉ (handleMessage w).1) ∧
    (chat.silent = true → ∀ tag, Effect.reportE tag ∉ (handleMessage w).1) := by
  have hgate : (jsTruthySize w.fileSize = true ∧ 19 * 1024 * 1024 ≤ w.fileSize.getD 0) := by
    rw [hsz]
    exact ⟨by simp [jsTruthySize, hnz], by simpa using hbig⟩
  have hinner : handleMessageInner w
      = if chat.silent then ([Effect.findChatE true], Res.ok)
        else ([Effect.findChatE true, Effect.largeFileError w.msgId w.largeFileOk],
              if w.largeFileOk then Res.ok else Res.err) := by
    simp only [handleMessageInner, hfind]
    rw [if_pos hgate]
  have hmsg : handleMessage w
      = if chat.silent then ([Effect.findChatE true], Res.ok)
        else if w.largeFileOk then
          ([Effect.findChatE true, Effect.largeFileError w.msgId true], Res.ok)
        else ([Effect.findChatE true, Effect.largeFileError w.msgId false,
               Effect.reportE "handleMessage"], Res.ok) := by
    cases hsil : chat.silent <;> cases hlf : w.largeFileOk <;>
      simp [handleMessage, hinner, hsil, hlf]
  refine ⟨?_, ?_, ?_, ?_, ?_, ?_⟩
  · intro h
    simp [hmsg, h]
  · intro h hlf
    simp [hmsg, h, hlf]
  · intro b
    cases hsil : chat.silent <;> cases hlf : w.largeFileOk <;> simp [hmsg, hsil, hlf]
  · intro b
    cases hsil : chat.silent <;> cases hlf : w.largeFileOk <;> simp [hmsg, hsil, hlf]
  · intro b
    cases hsil : chat.silent <;> cases hlf : w.largeFileOk <;> simp [hmsg, hsil, hlf]
  · intro h tag
    simp [hmsg, h]

/-- A silent chat on the non-credential engine, used for witnesses. -/
def witSilentChat : Chat where
  id := 10
  engine := "wit"
  googleKey := none
  googleLanguage := none
  witLanguage := some "en-US"
  silent := true
  timecodesEnabled := false

/-- An interactive google-engine chat without a credential, used for
witnesses. -/
def googleLoudChat : Chat where
  id := 10
  engine := "google"
  googleKey := none
  googleLanguage := some "en-US"
  witLanguage := none
  silent := false
  timecodesEnabled := false

/-- A world whose attachment hits the size gate in a silent chat. -/
def w2s : World :=
  { baseWorld with findChatResult := some witSilentChat, fileSize := some (19 * 1024 * 1024) }

theorem claim_C2_witness :
    handleMessage w2s = ([Effect.findChatE true], Res.ok) ∧
    (∀ b, Effect.engineCall b ∉ (handleMessage w2s).1) :=
  ⟨(claim_C2 w2s witSilentChat (19 * 1024 * 1024) rfl rfl (by decide) (by decide)).1 rfl,
   (claim_C2 w2s witSilentChat (19 * 1024 * 1024) rfl rfl (by decide) (by decide)).2.2.1⟩

/-- C3 (confirmed): with the google engine selected and no credential
configured, the pipeline calls no engine; a silent chat gets no message and
no report (only the typing indicator); an interactive chat has the already
sent placeholder edited — through the detached `updateWithGoogleKeyError`
call — to the credential-error text (with the promo step applied, so the
localized text is a prefix of the edit), and the function returns normally. -/
theorem claim_C3 (w : World) (chat : Chat)
    (hfind : w.findChatResult = some chat)
    (hgate : ¬(jsTruthySize w.fileSize = true ∧ 19 * 1024 * 1024 ≤ w.fileSize.getD 0))
    (hgf : w.getFileOk = true) (hfu : w.fileUrlOk = true)
    (heng : chat.engine = "google") (hkey : jsTruthyKey chat.googleKey = false) :
    (chat.silent = true → w.typingOk = true →
      handleMessage w
        = ([Effect.findChatE true, Effect.getFileE true, Effect.fileUrlE true,
            Effect.typingE true], Res.ok)) ∧
    (chat.silent = false → w.placeholderOk = true → w.credsText ≠ [] →
      (addPromo w.chatIdCtx w.isRu w.credsText).length ≤ 4000 →
      handleMessage w
        = ([Effect.findChatE true, Effect.getFileE true, Effect.fileUrlE true,
            Effect.initiatedReply w.msgId true,
            Effect.detached (Effect.editMessage w.placeholderMsgId
              (addPromo w.chatIdCtx w.isRu w.credsText) w.editOk)], Res.ok) ∧
      w.credsText <+: addPromo w.chatIdCtx w.isRu w.credsText) ∧
    (∀ b, Effect.engineCall b ∉ (handleMessage w).1) := by
  have hin := inner_eval w chat hfind hgate hgf hfu
  have hss : (handleMessageInner w).2 = Res.ok := by
    rw [hin]
    split <;> rfl
  have hmsg := handleMessage_ok w hss
  refine ⟨?_, ?_, ?_⟩
  · intro hsil hty
    have hsa := sendAction_creds w chat heng hkey hty
    rw [hmsg, hin, if_pos (by simp [hsil]), hsa]
    rfl
  · intro hsil hpl hne hlen
    have hst := sendTranscription_creds w chat heng hkey hpl
    have hu : (updateWithGoogleKeyError w).1
        = [Effect.editMessage w.placeholderMsgId
            (addPromo w.chatIdCtx w.isRu w.credsText) w.editOk] := by
      unfold updateWithGoogleKeyError
      rw [update_short w _ _ (addPromo_ne_nil _ _ hne) hlen]
    refine ⟨?_, addPromo_prefix _ _ _⟩
    rw [hmsg, hin, if_neg (by simp [hsil]), hst, hu]
    rfl
  · intro b
    rw [hmsg, hin]
    have hsa := sendAction_creds_noEngine w chat heng hkey b
    have hst := sendTranscription_creds_noEngine w chat heng hkey b
    split
    · cases h2 : (sendAction w chat).2 <;> simp [hsa]
    · cases h2 : (sendTranscription w chat).2 <;> simp [hst]

/-- A world for the interactive credential-error witness. -/
def w3 : World := { baseWorld with findChatResult := some googleLoudChat }

theorem claim_C3_witness :
    handleMessage w3
      = ([Effect.findChatE true, Effect.getFileE true, Effect.fileUrlE true,
          Effect.initiatedReply w3.msgId true,
          Effect.detached (Effect.editMessage w3.placeholderMsgId
            (addPromo w3.chatIdCtx w3.isRu w3.credsText) w3.editOk)], Res.ok) ∧
    w3.credsText <+: addPromo w3.chatIdCtx w3.isRu w3.credsText :=
  (claim_C3 w3 googleLoudChat rfl (by decide) rfl rfl rfl rfl).2.1 rfl rfl
    (by decide) (by decide)

/-- C9 (confirmed): in silent mode, when the non-timecoded display text is
empty, nothing at all is sent to the chat (no send, no reply, no edit, no
fallback notice), yet the voice record is still persisted with the empty
aggregate text. -/
theorem claim_C9 (w : World) (chat : Chat)
    (segs : List (List Char × List Char)) (dur : Nat)
    (hfind : w.findChatResult = some chat) (hsil : chat.silent = true)
    (htc : chat.timecodesEnabled = false)
    (hgate : ¬(jsTruthySize w.fileSize = true ∧ 19 * 1024 * 1024 ≤ w.fileSize.getD 0))
    (hgf : w.getFileOk = true) (hfu : w.fileUrlOk = true) (hty : w.typingOk = true)
    (hnc : ¬(chat.engine = "google" ∧ jsTruthyKey chat.googleKey = false))
    (heng : w.engineResult = some (segs, dur))
    (hempty : formatPlain segs = []) (hav : w.addVoiceOk = true) :
    handleMessage w
      = ([Effect.findChatE true, Effect.getFileE true, Effect.fileUrlE true,
          Effect.typingE true, Effect.engineCall true, Effect.addVoiceE [] true],
         Res.ok) ∧
    (∀ cid t b, Effect.sendMsg cid t b ∉ (handleMessage w).1) ∧
    (∀ t r b, Effect.replyMsg t r b ∉ (handleMessage w).1) ∧
    (∀ m t b, Effect.editMessage m t b ∉ (handleMessage w).1) ∧
    Effect.addVoiceE [] true ∈ (handleMessage w).1 := by
  have hsa := sendAction_empty w chat segs dur hty hnc heng htc hempty hav
  have hin := inner_eval w chat hfind hgate hgf hfu
  rw [if_pos (by simp [hsil]), hsa] at hin
  simp only [List.append_nil] at hin
  have hss : (handleMessageInner w).2 = Res.ok := by rw [hin]
  have hmsg := handleMessage_ok w hss
  rw [hmsg, hin]
  refine ⟨rfl, ?_, ?_, ?_, by simp⟩
  · intro cid t b
    simp
  · intro t r b
    simp
  · intro m t b
    simp

/-- A world for the silent empty-transcription witness: one segment whose
text trims to the empty string. -/
def w9 : World :=
  { baseWorld with
      findChatResult := some witSilentChat
      engineResult := some ([("0:00".toList, "  ".toList)], 5) }

theorem claim_C9_witness :
    handleMessage w9
      = ([Effect.findChatE true, Effect.getFileE true, Effect.fileUrlE true,
          Effect.typingE true, Effect.engineCall true, Effect.addVoiceE [] true],
         Res.ok) ∧
    Effect.addVoiceE [] true ∈ (handleMessage w9).1 := by
  have h := claim_C9 w9 witSilentChat [("0:00".toList, "  ".toList)] 5 rfl rfl rfl
    (by decide) rfl rfl rfl (by decide) rfl (by decide) rfl
  exact ⟨h.1, h.2.2.2.2⟩

theorem chunkAllGo_nil_fuel (n : Nat) : chunkAllGo n [] = [] := by
  cases n <;> rfl

theorem chunkAllGo_step (n : Nat) (xs : List Char) (h : xs ≠ []) :
    chunkAllGo (n + 1) xs = xs.take 4000 :: chunkAllGo n (xs.drop 4000) := by
  cases xs with
  | nil => exact absurd rfl h
  | cons c cs => rfl

theorem chunkAll_9000 (xs : List Char) (h : xs.length = 9000) :
    chunkAll xs = [xs.take 4000, (xs.drop 4000).take 4000, xs.drop 8000] := by
  have h1 : xs ≠ [] := by
    intro e
    rw [e] at h
    simp at h
  have hd1 : (xs.drop 4000).length = 5000 := by simp [List.length_drop, h]
  have h2 : xs.drop 4000 ≠ [] := by
    intro e
    rw [e] at hd1
    simp at hd1
  have hd2 : (xs.drop 8000).length = 1000 := by simp [List.length_drop, h]
  have h3 : xs.drop 8000 ≠ [] := by
    intro e
    rw [e] at hd2
    simp at hd2
  have e1 : chunkAllGo 9000 xs = xs.take 4000 :: chunkAllGo 8999 (xs.drop 4000) :=
    chunkAllGo_step 8999 xs h1
  have e2 : chunkAllGo 8999 (xs.drop 4000)
      = (xs.drop 4000).take 4000 :: chunkAllGo 8998 ((xs.drop 4000).drop 4000) :=
    chunkAllGo_step 8998 _ h2
  have e3 : (xs.drop 4000).drop 4000 = xs.drop 8000 := by
    rw [List.drop_drop]
  have e4 : chunkAllGo 8998 (xs.drop 8000)
      = (xs.drop 8000).take 4000 :: chunkAllGo 8997 ((xs.drop 8000).drop 4000) :=
    chunkAllGo_step 8997 _ h3
  have e5 : (xs.drop 8000).take 4000 = xs.drop 8000 :=
    List.take_of_length_le (by rw [hd2]; norm_num)
  have e6 : (xs.drop 8000).drop 4000 = ([] : List Char) :=
    List.drop_eq_nil_of_le (by rw [hd2]; norm_num)
  unfold chunkAll
  rw [h, e1, e2, e3, e4, e5, e6, chunkAllGo_nil_fuel]

/-- C7 (confirmed): in the interactive path, when the display string (after
the promo step) has exactly 9000 units, delivery is exactly one edit of the
placeholder with the first 4000 units, followed by two replies threaded to
the placeholder carrying the next 4000 units and the last 1000 units, in
original content order. -/
theorem claim_C7 (w : World) (msgId : Nat) (text : List Char)
    (hlen : (addPromo w.chatIdCtx w.isRu text).length = 9000)
    (hedit : w.editOk = true) (hreply : w.replyOk = true) :
    updateMessagewithTranscription w msgId text
      = ([Effect.editMessage msgId ((addPromo w.chatIdCtx w.isRu text).take 4000) true,
          Effect.replyMsg (((addPromo w.chatIdCtx w.isRu text).drop 4000).take 4000)
            msgId true,
          Effect.replyMsg ((addPromo w.chatIdCtx w.isRu text).drop 8000) msgId true],
         Res.ok) := by
  have hnotshort : ¬(addPromo w.chatIdCtx w.isRu text = []
      ∨ (addPromo w.chatIdCtx w.isRu text).length ≤ 4000) := by
    rintro (he | hle)
    · rw [he] at hlen
      simp at hlen
    · rw [hlen] at hle
      omega
  simp only [updateMessagewithTranscription]
  rw [if_neg hnotshort, chunkAll_9000 _ hlen]
  simp only [hedit, if_true]
  rw [replyChunks_all w msgId hreply]
  rfl

/-- A world and promo-exempt chat id for the 9000-unit witness. -/
def w7 : World := { baseWorld with chatIdCtx := -471839945 }

theorem claim_C7_witness :
    updateMessagewithTranscription w7 2 (List.replicate 9000 'a')
      = ([Effect.editMessage 2
            ((addPromo w7.chatIdCtx w7.isRu (List.replicate 9000 'a')).take 4000) true,
          Effect.replyMsg
            (((addPromo w7.chatIdCtx w7.isRu (List.replicate 9000 'a')).drop 4000).take 4000)
            2 true,
          Effect.replyMsg
            ((addPromo w7.chatIdCtx w7.isRu (List.replicate 9000 'a')).drop 8000) 2 true],
         Res.ok) :=
  claim_C7 w7 2 (List.replicate 9000 'a')
    (by
      have hx : w7.chatIdCtx ∈ promoExceptions := by decide
      rw [addPromo_exempt w7.isRu (List.replicate 9000 'a') hx]
      rw [List.length_replicate]) rfl rfl

theorem sendTranscription_addVoice (w : World) (chat : Chat)
    (segs : List (List Char × List Char)) (dur : Nat)
    (heng : w.engineResult = some (segs, dur)) :
    ∀ agg ok, Effect.addVoiceE agg ok ∈ (sendTranscription w chat).1 →
      agg = formatPlain segs := by
  intro agg ok hmem
  have hu : ∀ t, Effect.addVoiceE agg ok
      ∉ (updateMessagewithTranscription w w.placeholderMsgId t).1 := by
    intro t hmem'
    rcases update_mem w w.placeholderMsgId t _ hmem' with ⟨t', ok', he⟩ | ⟨c, ok', he⟩ <;>
      exact Effect.noConfusion he
  have herr : Effect.addVoiceE agg ok
      ∉ (updateMessagewithError w w.placeholderMsgId chat).1 := by
    intro hmem'
    rcases updErr_mem w w.placeholderMsgId chat _ hmem' with ⟨t', ok', he⟩ | he <;>
      exact Effect.noConfusion he
  simp only [sendTranscription, heng] at hmem
  split at hmem
  · split at hmem
    · simp only [List.mem_cons, List.mem_map] at hmem
      rcases hmem with h | ⟨e, -, h⟩ <;> exact Effect.noConfusion h
    · split at hmem
      · simp only [List.mem_cons, List.mem_append, List.mem_singleton, List.not_mem_nil,
          or_false, false_or, or_assoc] at hmem
        rcases hmem with h | h | h | h | h <;>
          first
          | exact absurd h (hu _)
          | exact absurd h herr
          | exact Effect.noConfusion h
          | (injection h with h1 h2; try exact h1)
      · split at hmem
        · simp only [List.mem_cons, List.mem_append, List.mem_singleton, List.not_mem_nil,
          or_false, false_or, or_assoc] at hmem
          rcases hmem with h | h | h | h <;>
            first
            | exact absurd h (hu _)
            | exact absurd h herr
            | exact Effect.noConfusion h
            | (injection h with h1 h2; try exact h1)
        · simp only [List.mem_cons, List.mem_append, List.mem_singleton, List.not_mem_nil,
          or_false, false_or, or_assoc] at hmem
          rcases hmem with h | h | h | h | h | h <;>
            first
            | exact absurd h (hu _)
            | exact absurd h herr
            | exact Effect.noConfusion h
            | (injection h with h1 h2; try exact h1)
  · simp only [List.mem_singleton] at hmem
    exact Effect.noConfusion hmem

theorem sendAction_addVoice (w : World) (chat : Chat)
    (segs : List (List Char × List Char)) (dur : Nat)
    (heng : w.engineResult = some (segs, dur)) :
    ∀ agg ok, Effect.addVoiceE agg ok ∈ (sendAction w chat).1 →
      agg = formatPlain segs := by
  intro agg ok hmem
  have hsm : ∀ t, Effect.addVoiceE agg ok
      ∉ (sendMessageWithTranscription w t chat.id).1 := by
    intro t hmem'
    rcases sendMessage_mem w t chat.id _ hmem' with ⟨t', ok', he⟩ | ⟨c, ok', he⟩ <;>
      exact Effect.noConfusion he
  simp only [sendAction, heng] at hmem
  split at hmem
  · split at hmem
    · simp only [List.mem_singleton] at hmem
      exact Effect.noConfusion hmem
    · split at hmem
      · simp only [List.mem_cons, List.mem_append, List.mem_singleton, List.not_mem_nil,
          or_false, false_or, or_assoc] at hmem
        rcases hmem with h | h | h | h <;>
          first
          | exact absurd h (hsm _)
          | exact Effect.noConfusion h
          | (injection h with h1 h2; try exact h1)
      · split at hmem
        · simp only [List.mem_cons, List.mem_append, List.mem_singleton, List.not_mem_nil,
          or_false, false_or, or_assoc] at hmem
          rcases hmem with h | h | h | h <;>
            first
            | exact absurd h (hsm _)
            | exact Effect.noConfusion h
            | (injection h with h1 h2; try exact h1)
        · simp only [List.mem_cons, List.mem_append, List.mem_singleton, List.not_mem_nil,
          or_false, false_or, or_assoc] at hmem
          rcases hmem with h | h | h | h | h <;>
            first
            | exact absurd h (hsm _)
            | exact Effect.noConfusion h
            | (injection h with h1 h2; try exact h1)
  · simp only [List.mem_singleton] at hmem
    exact Effect.noConfusion hmem

/-- C8 (confirmed): in both delivery modes, for every timecode-flag setting,
any persisted voice record carries exactly the non-timecoded formatting of
the raw segments (trimmed, empties dropped, joined with `". "`) — the
aggregate never goes through the promo step or the timecode formatter. -/
theorem claim_C8 (w : World) (chat : Chat)
    (segs : List (List Char × List Char)) (dur : Nat)
    (heng : w.engineResult = some (segs, dur)) :
    (∀ agg ok, Effect.addVoiceE agg ok ∈ (sendTranscription w chat).1 →
      agg = formatPlain segs) ∧
    (∀ agg ok, Effect.addVoiceE agg ok ∈ (sendAction w chat).1 →
      agg = formatPlain segs) :=
  ⟨sendTranscription_addVoice w chat segs dur heng,
   sendAction_addVoice w chat segs dur heng⟩

/-- A world whose engine returns a non-trivial segment list, for the C8
witness. -/
def w8 : World :=
  { baseWorld with engineResult := some ([("0:00".toList, "hello ".toList)], 5) }

theorem claim_C8_witness :
    Effect.addVoiceE "hello".toList true ∈ (sendAction w8 witSilentChat).1 ∧
    "hello".toList = formatPlain [("0:00".toList, "hello ".toList)] :=
  ⟨by decide,
   (claim_C8 w8 witSilentChat [("0:00".toList, "hello ".toList)] 5 rfl).2
     "hello".toList true (by decide)⟩

/-! ### Failure-isolation lemmas for C4 -/

theorem detached_noFail (l : Trace) :
    (l.map Effect.detached).any isFailedLeaf = false := by
  induction l with
  | nil => rfl
  | cons e l ih => simp [isFailedLeaf, ih]

theorem sendTranscription_safe (w : World) (chat : Chat) :
    (sendTranscription w chat).1.any isFailedLeaf = true →
      (sendTranscription w chat).2 = Res.err ∨
      (sendTranscription w chat).1.any isReport = true := by
  simp only [sendTranscription]
  split
  · split
    · intro h
      simp only [List.any_cons] at h
      rcases Bool.or_eq_true_iff.mp h with h | h
      · simp [isFailedLeaf] at h
      · rw [detached_noFail] at h
        exact absurd h (by simp)
    · split
      · intro _
        right
        simp [isReport]
      · split
        · intro _
          right
          simp [isReport]
        · split
          · intro h
            exfalso
            rename_i heq hav
            simp only [List.any_cons, List.any_append, List.any_nil, isFailedLeaf,
              Bool.false_or, Bool.or_false] at h
            rw [update_ok_noFail w w.placeholderMsgId _ heq] at h
            exact absurd h (by simp)
          · intro _
            right
            simp [isReport]
  · intro _
    left
    rfl

theorem sendAction_safe (w : World) (chat : Chat) :
    (sendAction w chat).1.any isFailedLeaf = true →
      (sendAction w chat).2 = Res.err ∨
      (sendAction w chat).1.any isReport = true := by
  simp only [sendAction]
  split
  · split
    · intro h
      simp [isFailedLeaf] at h
    · split
      · intro _
        right
        simp [isReport]
      · split
        · intro _
          right
          simp [isReport]
        · split
          · intro h
            exfalso
            rename_i heq hav
            simp only [List.any_cons, List.any_append, List.any_nil, isFailedLeaf,
              Bool.false_or, Bool.or_false] at h
            rw [sendMessage_ok_noFail w _ chat.id heq] at h
            exact absurd h (by simp)
          · intro _
            right
            simp [isReport]
  · intro _
    left
    rfl

theorem inner_safe (w : World) :
    (handleMessageInner w).1.any isFailedLeaf = true →
      (handleMessageInner w).2 = Res.err ∨
      (handleMessageInner w).1.any isReport = true := by
  simp only [handleMessageInner]
  split
  · intro _
    left
    rfl
  · split
    · split
      · intro h
        simp [isFailedLeaf] at h
      · intro h
        simp only [List.any_cons, List.any_nil, isFailedLeaf, Bool.not_true,
          Bool.false_or, Bool.or_false] at h
        left
        rw [Bool.not_eq_true'] at h
        simp [h]
    · split
      · split
        · split
          · intro h
            right
            cases ha : (sendAction w _).2 with
            | ok =>
              rw [ha] at h
              simp only [List.any_cons, List.any_append, List.any_nil, isFailedLeaf,
                Bool.not_true, Bool.false_or, Bool.or_false] at h
              rcases sendAction_safe w _ h with hres | hrep
              · rw [ha] at hres
                exact absurd hres (by simp)
              · simp [isReport, hrep]
            | err =>
              simp [isReport]
          · intro h
            right
            cases ha : (sendTranscription w _).2 with
            | ok =>
              rw [ha] at h
              simp only [List.any_cons, List.any_append, List.any_nil, isFailedLeaf,
                Bool.not_true, Bool.false_or, Bool.or_false] at h
              rcases sendTranscription_safe w _ h with hres | hrep
              · rw [ha] at hres
                exact absurd hres (by simp)
              · simp [isReport, hrep]
            | err =>
              simp [isReport]
        · intro _
          left
          rfl
      · intro _
        left
        rfl

/-- C4, counterexample: with an interactive google-engine chat that has no
credential and a platform that rejects the edit, the credential-error edit is
attempted (and fails) inside the detached `updateWithGoogleKeyError` call, yet
the run reaches no catch block: a collaborator failure occurs and nothing at
all is forwarded to the reporting sink. -/
def w4 : World := { baseWorld with findChatResult := some googleLoudChat, editOk := false }

theorem claim_C4_cex :
    ((handleMessage w4).1.any isFailedAny = true) ∧
    ((handleMessage w4).1.any isReport = false) := by
  decide

/-- C4 (amended): for every combination of collaborator outcomes the entry
point returns normally (no exception ever reaches its caller), and every
failure of an awaited collaborator call is forwarded to the reporting sink
with a phase tag; the one exception is the fire-and-forget placeholder edit
of the interactive missing-credentials path, whose failure is neither
propagated nor reported. -/
theorem claim_C4 (w : World) :
    (handleMessage w).2 = Res.ok ∧
    ((handleMessage w).1.any isFailedLeaf = true →
      (handleMessage w).1.any isReport = true) := by
  constructor
  · cases hr : (handleMessageInner w).2 with
    | ok => simp [handleMessage, hr]
    | err => simp [handleMessage, hr]
  · intro h
    cases hr : (handleMessageInner w).2 with
    | ok =>
      rw [handleMessage_ok w hr] at h ⊢
      rcases inner_safe w h with hres | hrep
      · rw [hr] at hres
        exact absurd hres (by simp)
      · exact hrep
    | err =>
      have hm : handleMessage w
          = ((handleMessageInner w).1 ++ [Effect.reportE "handleMessage"], Res.ok) := by
        simp [handleMessage, hr]
      rw [hm]
      simp [isReport]

theorem claim_C4_witness :
    (handleMessage baseWorld).2 = Res.ok ∧
    (handleMessage baseWorld).1.any isReport = true :=
  ⟨(claim_C4 baseWorld).1, (claim_C4 baseWorld).2 (by decide)⟩

end Voicy
